import Mathlib

/-!
Shallow embedding of the STAC crawler's harvest engine (`stac-crawler.py`).

The embedding models the two traversal engines (`harvest_static_catalog`,
`harvest_dynamic_catalog` with its helper `_dynamic_worker`), the strategy
classifier (`generate_crawl_plan` together with the status assignment of
`run_reconnaissance`), and the dispatch/failure branches of
`build_knowledge_base`.  HTTP is abstracted as an oracle
`fetch : String → FetchRes` (resp. `String → Option Json` for the dynamic
engine, whose broad `except Exception` makes all fetch/parse failures
indistinguishable), and `urljoin` as an abstract `resolve` function.
Python exceptions that escape a function are modelled with `Except Unit`
or a `crashed` flag; exceptions swallowed by a `continue` are modelled by
the corresponding skip behaviour.  Both engines additionally record the
URLs they fetch, mirroring the HTTP requests the Python code issues.
The dynamic worker's unbounded `while queue:` loop is given an explicit
`fuel` budget; every property proved about it holds for every fuel value,
so it holds of every finite prefix of the Python execution.
Python iterates its frontier `set` in an unspecified order; the embedding
canonicalizes frontiers as insertion-ordered duplicate-free lists, which
fixes the order of records within a level but not which URLs are fetched,
visited or counted.
-/

/-- JSON values as decoded by the crawler's HTTP layer (`res.json()`). -/
inductive Json where
  | null
  | bool (b : Bool)
  | num (n : Int)
  | str (s : String)
  | arr (elems : List Json)
  | obj (fields : List (String × Json))

mutual

/-- Boolean equality of JSON values (Python `==` on decoded values). -/
def Json.beq : Json → Json → Bool
  | Json.null, Json.null => true
  | Json.bool p, Json.bool q => p == q
  | Json.num p, Json.num q => p == q
  | Json.str p, Json.str q => p == q
  | Json.arr xs, Json.arr ys => Json.beqL xs ys
  | Json.obj kvs, Json.obj lvs => Json.beqF kvs lvs
  | _, _ => false

/-- Elementwise equality of JSON arrays. -/
def Json.beqL : List Json → List Json → Bool
  | p :: ps, q :: qs => Json.beq p q && Json.beqL ps qs
  | [], [] => true
  | _, _ => false

/-- Fieldwise equality of JSON objects. -/
def Json.beqF : List (String × Json) → List (String × Json) → Bool
  | kv :: xs, lv :: ys => (kv.1 == lv.1) && Json.beq kv.2 lv.2 && Json.beqF xs ys
  | [], [] => true
  | _, _ => false

end

mutual

def Json.beq_refl : ∀ a : Json, Json.beq a a = true
  | Json.null => rfl
  | Json.bool b => by simp [Json.beq]
  | Json.num n => by simp [Json.beq]
  | Json.str s => by simp [Json.beq]
  | Json.arr xs => by simp only [Json.beq]; exact Json.beqL_refl xs
  | Json.obj kvs => by simp only [Json.beq]; exact Json.beqF_refl kvs

def Json.beqL_refl : ∀ xs : List Json, Json.beqL xs xs = true
  | [] => rfl
  | x :: xs => by
    simp only [Json.beqL, Bool.and_eq_true]
    exact ⟨Json.beq_refl x, Json.beqL_refl xs⟩

def Json.beqF_refl : ∀ kvs : List (String × Json), Json.beqF kvs kvs = true
  | [] => rfl
  | kv :: kvs => by
    simp only [Json.beqF, Bool.and_eq_true, beq_self_eq_true, true_and]
    exact ⟨Json.beq_refl kv.2, Json.beqF_refl kvs⟩

end

mutual

def Json.beq_sound : ∀ a b : Json, Json.beq a b = true → a = b
  | Json.null, Json.null, _ => rfl
  | Json.bool a, Json.bool b, h => by simp [Json.beq] at h; simp [h]
  | Json.num a, Json.num b, h => by simp [Json.beq] at h; simp [h]
  | Json.str a, Json.str b, h => by simp [Json.beq] at h; simp [h]
  | Json.arr xs, Json.arr ys, h => by
    simp only [Json.beq] at h
    exact congrArg Json.arr (Json.beqL_sound xs ys h)
  | Json.obj kvs, Json.obj lvs, h => by
    simp only [Json.beq] at h
    exact congrArg Json.obj (Json.beqF_sound kvs lvs h)
  | Json.null, Json.bool _, h => Bool.noConfusion h
  | Json.null, Json.num _, h => Bool.noConfusion h
  | Json.null, Json.str _, h => Bool.noConfusion h
  | Json.null, Json.arr _, h => Bool.noConfusion h
  | Json.null, Json.obj _, h => Bool.noConfusion h
  | Json.bool _, Json.null, h => Bool.noConfusion h
  | Json.bool _, Json.num _, h => Bool.noConfusion h
  | Json.bool _, Json.str _, h => Bool.noConfusion h
  | Json.bool _, Json.arr _, h => Bool.noConfusion h
  | Json.bool _, Json.obj _, h => Bool.noConfusion h
  | Json.num _, Json.null, h => Bool.noConfusion h
  | Json.num _, Json.bool _, h => Bool.noConfusion h
  | Json.num _, Json.str _, h => Bool.noConfusion h
  | Json.num _, Json.arr _, h => Bool.noConfusion h
  | Json.num _, Json.obj _, h => Bool.noConfusion h
  | Json.str _, Json.null, h => Bool.noConfusion h
  | Json.str _, Json.bool _, h => Bool.noConfusion h
  | Json.str _, Json.num _, h => Bool.noConfusion h
  | Json.str _, Json.arr _, h => Bool.noConfusion h
  | Json.str _, Json.obj _, h => Bool.noConfusion h
  | Json.arr _, Json.null, h => Bool.noConfusion h
  | Json.arr _, Json.bool _, h => Bool.noConfusion h
  | Json.arr _, Json.num _, h => Bool.noConfusion h
  | Json.arr _, Json.str _, h => Bool.noConfusion h
  | Json.arr _, Json.obj _, h => Bool.noConfusion h
  | Json.obj _, Json.null, h => Bool.noConfusion h
  | Json.obj _, Json.bool _, h => Bool.noConfusion h
  | Json.obj _, Json.num _, h => Bool.noConfusion h
  | Json.obj _, Json.str _, h => Bool.noConfusion h
  | Json.obj _, Json.arr _, h => Bool.noConfusion h

def Json.beqL_sound : ∀ xs ys : List Json, Json.beqL xs ys = true → xs = ys
  | [], [], _ => rfl
  | x :: xs, y :: ys, h => by
    simp only [Json.beqL, Bool.and_eq_true] at h
    rw [Json.beq_sound x y h.1, Json.beqL_sound xs ys h.2]
  | [], _ :: _, h => Bool.noConfusion h
  | _ :: _, [], h => Bool.noConfusion h

def Json.beqF_sound : ∀ xs ys : List (String × Json), Json.beqF xs ys = true → xs = ys
  | [], [], _ => rfl
  | kv :: xs, lv :: ys, h => by
    simp only [Json.beqF, Bool.and_eq_true] at h
    obtain ⟨⟨hk, hv⟩, ht⟩ := h
    have h1 : kv = lv := by
      obtain ⟨k1, v1⟩ := kv; obtain ⟨k2, v2⟩ := lv
      simp only at hk hv
      rw [show k1 = k2 from beq_iff_eq.mp hk, Json.beq_sound v1 v2 hv]
    rw [h1, Json.beqF_sound xs ys ht]
  | [], _ :: _, h => Bool.noConfusion h
  | _ :: _, [], h => Bool.noConfusion h

end

instance : DecidableEq Json := fun a b =>
  if h : Json.beq a b = true then isTrue (Json.beq_sound a b h)
  else isFalse (fun he => h (by rw [he]; exact Json.beq_refl b))

/-- Key lookup in a decoded JSON object, i.e. Python `dict` access.  A decoded
object has distinct keys, so first-match lookup is dict lookup. -/
def jsonLookup : List (String × Json) → String → Option Json
  | [], _ => none
  | kv :: rest, key => if kv.1 = key then some kv.2 else jsonLookup rest key

/-- Python iteration over a JSON value: lists yield their elements, dicts yield
their keys, strings yield their one-character substrings, and every other
value raises `TypeError`. -/
def pyIter : Json → Except Unit (List Json)
  | Json.arr xs => Except.ok xs
  | Json.obj kvs => Except.ok (kvs.map (fun kv => Json.str kv.1))
  | Json.str s => Except.ok (s.toList.map (fun c => Json.str (String.mk [c])))
  | _ => Except.error ()

/-- Coercion to `str` at the points where Python would call a string method or
pass the value to `urljoin`: any non-string raises there. -/
def asStr : Json → Except Unit String
  | Json.str s => Except.ok s
  | _ => Except.error ()

/-- Python truthiness of a JSON value. -/
def pyTruthy : Json → Bool
  | Json.null => false
  | Json.bool b => b
  | Json.num n => decide (n ≠ 0)
  | Json.str s => decide (s ≠ "")
  | Json.arr xs => !xs.isEmpty
  | Json.obj kvs => !kvs.isEmpty

/-- `str.endswith`, character-exact on the decoded character sequence. -/
def strEndsWith (s suffix : String) : Bool :=
  decide (suffix.data.length ≤ s.data.length ∧
    s.data.drop (s.data.length - suffix.data.length) = suffix.data)

/-- `str.lower`, characterwise (ASCII letters are all the source compares). -/
def strToLower (s : String) : String := String.mk (s.data.map Char.toLower)

/-- Outcome of one HTTP GET in the static engine: a transport-level exception
(an `Exception` returned by `asyncio.gather`), a body on which `res.json()`
raises `json.JSONDecodeError`, or a successfully decoded value. -/
inductive FetchRes where
  | fail
  | badJson
  | doc (j : Json)
  deriving DecidableEq

/-- The link-extraction loop of `harvest_static_catalog`: for every link whose
`rel` is `child` or `collection`, resolve its `href` against the fetched URL
and add it to the next level if it is non-empty and unvisited.  A non-dict
link raises `AttributeError` and a non-string `href` raises `TypeError` in
`urljoin`; neither is caught by the engine's `except json.JSONDecodeError`. -/
def static_links (resolve : String → String → String) (base : String) :
    List Json → List String → List String → Except Unit (List String)
  | [], _, next => Except.ok next
  | link :: rest, visited, next =>
    match link with
    | Json.obj lkvs =>
      if jsonLookup lkvs "rel" = some (Json.str "child") ∨
         jsonLookup lkvs "rel" = some (Json.str "collection") then
        match asStr ((jsonLookup lkvs "href").getD (Json.str "")) with
        | Except.error e => Except.error e
        | Except.ok hrefS =>
          if resolve base hrefS ≠ "" ∧ resolve base hrefS ∉ visited ∧
             resolve base hrefS ∉ next then
            static_links resolve base rest visited (next ++ [resolve base hrefS])
          else
            static_links resolve base rest visited next
      else static_links resolve base rest visited next
    | _ => Except.error ()

/-- Per-document processing of `harvest_static_catalog`: classify the document
(`type` case-insensitively `catalog`/`collection`, or truthy `stac_version`),
append it to the record list if it matches, then extract child links.  A
non-dict document raises `AttributeError` at `data.get("type")`. -/
def static_process_doc (resolve : String → String → String) (base : String)
    (data : Json) (visited : List String) (cols : List Json)
    (next : List String) : Except Unit (List Json × List String) :=
  match data with
  | Json.obj kvs =>
    let typeMatch : Bool :=
      match jsonLookup kvs "type" with
      | some (Json.str s) => strToLower s == "catalog" || strToLower s == "collection"
      | _ => false
    let isCatalog : Bool :=
      typeMatch ||
        (match jsonLookup kvs "stac_version" with
         | some v => pyTruthy v
         | none => false)
    let cols' := if isCatalog then cols ++ [data] else cols
    match pyIter ((jsonLookup kvs "links").getD (Json.arr [])) with
    | Except.error e => Except.error e
    | Except.ok links =>
      match static_links resolve base links visited next with
      | Except.error e => Except.error e
      | Except.ok next' => Except.ok (cols', next')
  | _ => Except.error ()

/-- One BFS level of `harvest_static_catalog`: process the gathered results of
the current frontier in order.  Transport errors and JSON-decode errors make
the URL contribute nothing; any other exception propagates. -/
def static_level (fetch : String → FetchRes) (resolve : String → String → String) :
    List String → List String → List Json → List String →
    Except Unit (List Json × List String)
  | [], _, cols, next => Except.ok (cols, next)
  | url :: rest, visited, cols, next =>
    match fetch url with
    | FetchRes.fail => static_level fetch resolve rest visited cols next
    | FetchRes.badJson => static_level fetch resolve rest visited cols next
    | FetchRes.doc data =>
      match static_process_doc resolve url data visited cols next with
      | Except.error e => Except.error e
      | Except.ok cn => static_level fetch resolve rest visited cn.1 cn.2

/-- Result of the static BFS loop.  `levels` lists the frontiers actually
fetched (every HTTP request of the invocation, level by level), `depthLeft`
is `max_depth - depth` at loop exit, and `crashed` records an exception that
escaped the loop. -/
structure StaticLoopOut where
  collections : List Json
  levels : List (List String)
  depthLeft : Nat
  crashed : Bool
  deriving DecidableEq

/-- The `while to_fetch and len(collections) < hard_limit and depth < max_depth`
loop of `harvest_static_catalog`, structurally recursive on the remaining
depth budget.  `visited |= to_fetch` happens before the level is processed,
exactly as in the source. -/
def static_loop (fetch : String → FetchRes) (resolve : String → String → String)
    (hard_limit : Nat) :
    Nat → List String → List String → List Json → StaticLoopOut
  | 0, _, _, cols => ⟨cols, [], 0, false⟩
  | fuel + 1, to_fetch, visited, cols =>
    if to_fetch = [] ∨ hard_limit ≤ cols.length then
      ⟨cols, [], fuel + 1, false⟩
    else
      let visited' := visited ++ to_fetch
      match static_level fetch resolve to_fetch visited' cols [] with
      | Except.error _ => ⟨cols, [to_fetch], fuel, true⟩
      | Except.ok cn =>
        let r := static_loop fetch resolve hard_limit fuel cn.2 visited' cn.1
        ⟨r.collections, to_fetch :: r.levels, r.depthLeft, r.crashed⟩

/-- Full outcome of one `harvest_static_catalog` invocation, trace included. -/
structure StaticHarvest where
  collections : List Json
  crawl_notes : List String
  levels : List (List String)
  crashed : Bool
  deriving DecidableEq

/-- `harvest_static_catalog(start_url, params)`: run the bounded BFS, then emit
the hard-limit note when `len(collections) >= hard_limit` and the depth note
when `depth >= max_depth` (i.e. when the loop consumed its whole budget). -/
def harvest_static_catalog (fetch : String → FetchRes)
    (resolve : String → String → String) (start_url : String)
    (max_depth hard_limit : Nat) : StaticHarvest :=
  let r := static_loop fetch resolve hard_limit max_depth [start_url] [] []
  let noteLimit : List String :=
    if hard_limit ≤ r.collections.length then
      ["Reached collection limit of " ++ toString hard_limit ++ "."]
    else []
  let noteDepth : List String :=
    if r.depthLeft = 0 then
      ["Reached depth limit of " ++ toString max_depth ++ "."]
    else []
  ⟨r.collections, noteLimit ++ noteDepth, r.levels, r.crashed⟩

/-- What the Python call returns: the `(collections, crawl_notes)` pair, unless
an exception escaped the function, in which case there is no return value. -/
def static_result (h : StaticHarvest) : Except Unit (List Json × List String) :=
  if h.crashed then Except.error () else Except.ok (h.collections, h.crawl_notes)

/-- All URLs fetched by one static invocation, in request order. -/
def static_fetched (h : StaticHarvest) : List String := h.levels.flatten

/-- The widest single-level fan-out of a static invocation. -/
def max_level_width (levels : List (List String)) : Nat :=
  levels.foldr (fun l acc => max l.length acc) 0

/-- The identity-style resolver used for concrete runs whose links already hold
absolute URLs (`urljoin` returns an absolute href unchanged). -/
def resolve_id (_base : String) (href : String) : String := href

/-- `unique[k] = v` on the worker's insertion-ordered Python dict: an existing
key keeps its position and gets the new value (last write wins); a new key is
appended at the end. -/
def upsert (m : List (Json × Json)) (k v : Json) : List (Json × Json) :=
  if (m.any fun p => decide (p.1 = k)) then
    m.map fun p => if p.1 = k then (k, v) else p
  else m ++ [(k, v)]

/-- Lookup in the worker's accumulation dict. -/
def dict_get : List (Json × Json) → Json → Option Json
  | [], _ => none
  | p :: rest, k => if p.1 = k then some p.2 else dict_get rest k

/-- `for item in data["collections"]:` — upsert every dict item carrying an
`id`, keyed by that id. -/
def worker_collections : List Json → List (Json × Json) → List (Json × Json)
  | [], unique => unique
  | item :: rest, unique =>
    match item with
    | Json.obj ikvs =>
      match jsonLookup ikvs "id" with
      | some idv => worker_collections rest (upsert unique idv item)
      | none => worker_collections rest unique
    | _ => worker_collections rest unique

/-- The worker's link-enqueue loop: links with `rel` in
`{child, data, collection, children}` are resolved and enqueued if non-empty,
unvisited, and not ending in `.json`; a URL is marked visited at enqueue
time.  A malformed link raises inside the worker's broad `except Exception`,
which aborts the rest of the links but keeps the effects already made. -/
def worker_links (resolve : String → String → String) (base : String) :
    List Json → List String → List String → List String × List String
  | [], visited, queue => (visited, queue)
  | link :: rest, visited, queue =>
    match link with
    | Json.obj lkvs =>
      if jsonLookup lkvs "rel" = some (Json.str "child") ∨
         jsonLookup lkvs "rel" = some (Json.str "data") ∨
         jsonLookup lkvs "rel" = some (Json.str "collection") ∨
         jsonLookup lkvs "rel" = some (Json.str "children") then
        match asStr ((jsonLookup lkvs "href").getD (Json.str "")) with
        | Except.error _ => (visited, queue)
        | Except.ok hrefS =>
          if resolve base hrefS ≠ "" ∧ resolve base hrefS ∉ visited ∧
             strEndsWith (resolve base hrefS) ".json" = false then
            worker_links resolve base rest
              (visited ++ [resolve base hrefS]) (queue ++ [resolve base hrefS])
          else worker_links resolve base rest visited queue
      else worker_links resolve base rest visited queue
    | _ => (visited, queue)

/-- Worker state threaded through one URL's processing. -/
structure WorkerState where
  visited : List String
  queue : List String
  unique : List (Json × Json)
  dynamic_limit : Nat
  deriving DecidableEq

/-- Processing of one successfully fetched dict document in `_dynamic_worker`:
the `collections` page block (first sight of a list-valued `collections`
field sets the soft limit to its length; every id-carrying item is
upserted), the `type == "Collection"` self-record block, then the link
enqueue loop.  A non-dict document makes all three blocks no-ops (the raise
is caught by `except Exception`), which callers model by skipping. -/
def worker_step (resolve : String → String → String) (url : String)
    (kvs : List (String × Json)) (visited queue : List String)
    (unique : List (Json × Json)) (dynamic_limit : Nat) : WorkerState :=
  let data := Json.obj kvs
  let pair :=
    match jsonLookup kvs "collections" with
    | some (Json.arr items) =>
      (worker_collections items unique,
       if dynamic_limit = 0 then items.length else dynamic_limit)
    | _ => (unique, dynamic_limit)
  let unique2 :=
    if jsonLookup kvs "type" = some (Json.str "Collection") then
      match jsonLookup kvs "id" with
      | some idv => upsert pair.1 idv data
      | none => pair.1
    else pair.1
  match pyIter ((jsonLookup kvs "links").getD (Json.arr [])) with
  | Except.error _ => ⟨visited, queue, unique2, pair.2⟩
  | Except.ok links =>
    let vq := worker_links resolve url links visited queue
    ⟨vq.1, vq.2, unique2, pair.2⟩

/-- Outcome of one `_dynamic_worker` run: the accumulation dict, the fetched
URLs in request order, and the final soft limit. -/
structure WorkerOut where
  unique : List (Json × Json)
  fetched : List String
  dynamic_limit : Nat
  deriving DecidableEq

/-- The worker's `while queue:` loop.  Before dequeuing, the soft-limit break
fires when `dynamic_limit > 0 and len(unique) >= dynamic_limit`.  A fetch or
parse failure (`except Exception`) skips the URL without requeuing it.  The
loop has no bound in the source; `fuel` caps the number of iterations
modelled, and fuel exhaustion returns the state accumulated so far. -/
def worker_loop (fetch : String → Option Json) (resolve : String → String → String) :
    Nat → List String → List String → List (Json × Json) → Nat → WorkerOut
  | 0, _, _, unique, limit => ⟨unique, [], limit⟩
  | _ + 1, [], _, unique, limit => ⟨unique, [], limit⟩
  | fuel + 1, url :: rest, visited, unique, limit =>
    if 0 < limit ∧ limit ≤ unique.length then ⟨unique, [], limit⟩
    else
      match fetch url with
      | none =>
        let r := worker_loop fetch resolve fuel rest visited unique limit
        ⟨r.unique, url :: r.fetched, r.dynamic_limit⟩
      | some (Json.obj kvs) =>
        let s := worker_step resolve url kvs visited rest unique limit
        let r := worker_loop fetch resolve fuel s.queue s.visited s.unique s.dynamic_limit
        ⟨r.unique, url :: r.fetched, r.dynamic_limit⟩
      | some _ =>
        let r := worker_loop fetch resolve fuel rest visited unique limit
        ⟨r.unique, url :: r.fetched, r.dynamic_limit⟩

/-- `_dynamic_worker(start_url, client)`: queue and visited set both start as
the singleton of the sub-catalog root. -/
def _dynamic_worker (fetch : String → Option Json) (resolve : String → String → String)
    (fuel : Nat) (start_url : String) : WorkerOut :=
  worker_loop fetch resolve fuel [start_url] [start_url] [] 0

/-- `list(unique.values())` — the worker's returned records. -/
def worker_records (w : WorkerOut) : List Json := w.unique.map fun p => p.2

/-- The `child_links` comprehension of `harvest_dynamic_catalog`: a non-dict
link raises `AttributeError`, caught by the endpoint-level `except`. -/
def child_links_of : List Json → Except Unit (List Json)
  | [] => Except.ok []
  | l :: rest =>
    match l with
    | Json.obj lkvs =>
      match child_links_of rest with
      | Except.error e => Except.error e
      | Except.ok cs =>
        if jsonLookup lkvs "rel" = some (Json.str "child") then Except.ok (l :: cs)
        else Except.ok cs
    | _ => Except.error ()

/-- The `has_master` generator: `any` short-circuits at the first link whose
href ends in `/collections` or `/collections/`; a non-string href reached by
the generator raises `AttributeError` at `.endswith`. -/
def has_master_links : List Json → Except Unit Bool
  | [] => Except.ok false
  | l :: rest =>
    match l with
    | Json.obj lkvs =>
      match asStr ((jsonLookup lkvs "href").getD (Json.str "")) with
      | Except.error e => Except.error e
      | Except.ok h =>
        if strEndsWith h "/collections" = true ∨ strEndsWith h "/collections/" = true then
          Except.ok true
        else has_master_links rest
    | _ => Except.error ()

/-- Phase A inspection of the fetched root document: extract the `child` links
and the master-`/collections`-link flag.  Any raise here is caught by the
endpoint-level `except Exception` and turns the invocation into a failure. -/
def dynamic_phase_a (data : Json) : Except Unit (List Json × Bool) :=
  match data with
  | Json.obj kvs =>
    match pyIter ((jsonLookup kvs "links").getD (Json.arr [])) with
    | Except.error e => Except.error e
    | Except.ok links =>
      match child_links_of links with
      | Except.error e => Except.error e
      | Except.ok cls =>
        match has_master_links links with
        | Except.error e => Except.error e
        | Except.ok hm => Except.ok (cls, hm)
  | _ => Except.error ()

/-- Accumulated outcome of the federated Phase B loop over the child links. -/
structure FedOut where
  collections : List Json
  fetched : List String
  worker_calls : List String
  crashed : Bool
  deriving DecidableEq

/-- The federated branch: one sequential worker per child link whose resolved
href is non-empty and does not end in `.json`.  A non-string href raises in
`urljoin`; the raise is caught at endpoint level, discarding the records of
the workers already run (their fetches still happened). -/
def federated_loop (fetch : String → Option Json) (resolve : String → String → String)
    (fuel : Nat) (start_url : String) : List Json → FedOut
  | [] => ⟨[], [], [], false⟩
  | link :: rest =>
    match link with
    | Json.obj lkvs =>
      match asStr ((jsonLookup lkvs "href").getD (Json.str "")) with
      | Except.error _ => ⟨[], [], [], true⟩
      | Except.ok hrefS =>
        if resolve start_url hrefS ≠ "" ∧
           strEndsWith (resolve start_url hrefS) ".json" = false then
          ⟨worker_records (_dynamic_worker fetch resolve fuel (resolve start_url hrefS)) ++
             (federated_loop fetch resolve fuel start_url rest).collections,
           (_dynamic_worker fetch resolve fuel (resolve start_url hrefS)).fetched ++
             (federated_loop fetch resolve fuel start_url rest).fetched,
           resolve start_url hrefS :: (federated_loop fetch resolve fuel start_url rest).worker_calls,
           (federated_loop fetch resolve fuel start_url rest).crashed⟩
        else federated_loop fetch resolve fuel start_url rest
    | _ => ⟨[], [], [], true⟩

/-- Full outcome of one `harvest_dynamic_catalog` invocation.  `result` is the
Python return value (`None` exactly when the endpoint-level `except` fired);
`fetched` lists every URL requested, Phase A root first; `worker_calls`
lists the sub-catalog roots handed to `_dynamic_worker`, in order. -/
structure DynOut where
  result : Option (List Json × List String)
  fetched : List String
  worker_calls : List String
  deriving DecidableEq

/-- `harvest_dynamic_catalog(start_url, params)`: fetch the root once (any
failure is fatal for the endpoint), detect federation, then run one worker
per sub-catalog root — each child link in the federated case, the root URL
itself otherwise. -/
def harvest_dynamic_catalog (fetch : String → Option Json)
    (resolve : String → String → String) (fuel : Nat) (start_url : String) : DynOut :=
  match fetch start_url with
  | none => ⟨none, [start_url], []⟩
  | some data =>
    match dynamic_phase_a data with
    | Except.error _ => ⟨none, [start_url], []⟩
    | Except.ok clhm =>
      if clhm.1 ≠ [] ∧ clhm.2 = false then
        let f := federated_loop fetch resolve fuel start_url clhm.1
        if f.crashed then ⟨none, start_url :: f.fetched, f.worker_calls⟩
        else
          ⟨some (f.collections,
             ["Federated crawl with " ++ toString clhm.1.length ++ " children."]),
           start_url :: f.fetched, f.worker_calls⟩
      else
        let w := _dynamic_worker fetch resolve fuel start_url
        ⟨some (worker_records w, ["Single endpoint crawl."]),
         start_url :: w.fetched, [start_url]⟩

/-- A crawl-plan entry, as written by `generate_crawl_plan`. -/
inductive Strategy where
  | skip
  | static_harvest (max_depth hard_limit : Nat)
  | dynamic_harvest (max_depth : Nat)
  deriving DecidableEq

/-- The slugs of the `MANUAL_OVERRIDES` table (all forcing `Skip`). -/
def MANUAL_OVERRIDES : List String :=
  ["astraea-earth-ondemand", "bdc-cbers", "bdc-sentinel-2",
   "catalonia-monthly-sentinel2", "cbers", "disasters-charter-mapper-catalog",
   "kagis-katalog", "kyfromabove", "gistda-drought-index-in-thailand",
   "gistda-flood-disaster-in-thailand", "geoplatform-stac-catalog",
   "openaerialmap-example", "satellite-vu-public-static-stac",
   "skyserve-mission-data", "swiss-data-cube-p"]

/-- The per-catalog status assignment of `run_reconnaissance`: a manual
override forces the skipped status without probing; otherwise the status is
`"OK"` on a successful probe and `"Failed: <exception name>"` otherwise. -/
def recon_status (slug : String) (probe : String → Option String) (url : String) : String :=
  if slug ∈ MANUAL_OVERRIDES then "Skipped (Manual Override)"
  else
    match probe url with
    | none => "OK"
    | some ename => "Failed: " ++ ename

/-- One entry of `generate_crawl_plan`: non-`OK` statuses are skipped, root
URLs ending in `.json` or `f=json` get the static strategy with its fixed
defaults (depth 3, limit 300), everything else the dynamic strategy with its
fixed default (depth 10). -/
def plan_entry (status url : String) : Strategy :=
  if status ≠ "OK" then Strategy.skip
  else if strEndsWith url ".json" = true ∨ strEndsWith url "f=json" = true then
    Strategy.static_harvest 3 300
  else Strategy.dynamic_harvest 10

/-- How `build_knowledge_base` classifies one processed endpoint: `crashed`
models an exception escaping the harvest call (no branch is reached at all),
`processing_error` is the `if not result:` branch, `no_collections` the
`if not collections:` branch. -/
inductive Outcome where
  | crashed
  | processing_error
  | no_collections
  | success (records : List Json) (notes : List String)
  deriving DecidableEq

/-- `build_knowledge_base`'s handling of one static-strategy endpoint: the
returned `(collections, notes)` tuple is always truthy, so `if not result:`
can only be skipped; an escaped exception crashes the build instead. -/
def process_endpoint_static (fetch : String → FetchRes)
    (resolve : String → String → String) (url : String)
    (max_depth hard_limit : Nat) : Outcome :=
  match static_result (harvest_static_catalog fetch resolve url max_depth hard_limit) with
  | Except.error _ => Outcome.crashed
  | Except.ok cn =>
    if cn.1 = [] then Outcome.no_collections else Outcome.success cn.1 cn.2

/-- `build_knowledge_base`'s handling of one dynamic-strategy endpoint: a
`None` result takes the `if not result:` (processing error) branch. -/
def process_endpoint_dynamic (fetch : String → Option Json)
    (resolve : String → String → String) (fuel : Nat) (url : String) : Outcome :=
  match (harvest_dynamic_catalog fetch resolve fuel url).result with
  | none => Outcome.processing_error
  | some cn =>
    if cn.1 = [] then Outcome.no_collections else Outcome.success cn.1 cn.2

/-- Well-shapedness of a single link for the static engine: processing it
cannot raise (it is a dict, and its href is a string whenever its rel makes
the engine touch the href). -/
def static_link_ok (l : Json) : Bool :=
  match l with
  | Json.obj lkvs =>
    if jsonLookup lkvs "rel" = some (Json.str "child") ∨
       jsonLookup lkvs "rel" = some (Json.str "collection") then
      match (jsonLookup lkvs "href").getD (Json.str "") with
      | Json.str _ => true
      | _ => false
    else true
  | _ => false

/-- Well-shapedness of a decoded body for the static engine: a dict whose
`links` value is iterable and all of whose links are well shaped. -/
def static_doc_ok (j : Json) : Bool :=
  match j with
  | Json.obj kvs =>
    match pyIter ((jsonLookup kvs "links").getD (Json.arr [])) with
    | Except.error _ => false
    | Except.ok links => links.all static_link_ok
  | _ => false

/-- A fetch outcome the static engine survives: failures are skipped, and a
decoded body must be well shaped. -/
def static_fetch_ok : FetchRes → Bool
  | FetchRes.fail => true
  | FetchRes.badJson => true
  | FetchRes.doc j => static_doc_ok j

/-- The id under which the dynamic worker would upsert a page item, if any. -/
def id_of : Json → Option Json
  | Json.obj ikvs => jsonLookup ikvs "id"
  | _ => none

/-- The last item of a `collections` page carrying the given id (the write
that wins). -/
def last_with_id (k : Json) : List Json → Option Json
  | [] => none
  | item :: rest =>
    match last_with_id k rest with
    | some it => some it
    | none => if id_of item = some k then some item else none

/-- The resolved hrefs of a child-link list, in order, raising where the
federated branch of `harvest_dynamic_catalog` would raise. -/
def resolved_child_hrefs (resolve : String → String → String) (base : String) :
    List Json → Except Unit (List String)
  | [] => Except.ok []
  | l :: rest =>
    match l with
    | Json.obj lkvs =>
      match asStr ((jsonLookup lkvs "href").getD (Json.str "")) with
      | Except.error e => Except.error e
      | Except.ok s =>
        match resolved_child_hrefs resolve base rest with
        | Except.error e => Except.error e
        | Except.ok hs => Except.ok (resolve base s :: hs)
    | _ => Except.error ()

/-- C1 run: a root whose document has no links at all. -/
def fetch_c1 : String → Option Json :=
  fun u => if u = "http://r" then some (Json.obj []) else none

/-- C2 scenario: root `A` with two `child` links to `B` and `C`. -/
def doc_a2 : Json :=
  Json.obj [("links", Json.arr
    [Json.obj [("rel", Json.str "child"), ("href", Json.str "http://b")],
     Json.obj [("rel", Json.str "child"), ("href", Json.str "http://c")]])]

/-- C2 scenario: document of `B`, `stac_version` set, no links. -/
def doc_b2 : Json := Json.obj [("stac_version", Json.str "1.0.0"), ("id", Json.str "B")]

/-- C2 scenario: document of `C`, `stac_version` set, no links. -/
def doc_c2 : Json := Json.obj [("stac_version", Json.str "1.0.0"), ("id", Json.str "C")]

/-- C2 scenario oracle. -/
def fetch_c2 : String → FetchRes := fun u =>
  if u = "http://a" then FetchRes.doc doc_a2
  else if u = "http://b" then FetchRes.doc doc_b2
  else if u = "http://c" then FetchRes.doc doc_c2
  else FetchRes.fail

/-- C3 fixture: a child link with a plain href. -/
def link_s1 : Json := Json.obj [("rel", Json.str "child"), ("href", Json.str "http://s1")]

/-- C3 fixture: a child link whose href ends in `.json`. -/
def link_s2 : Json := Json.obj [("rel", Json.str "child"), ("href", Json.str "http://s2.json")]

/-- C3 federated root: two child links, no `/collections` link. -/
def doc_c3 : Json := Json.obj [("links", Json.arr [link_s1, link_s2])]

/-- C3 federated oracle. -/
def fetch_c3 : String → Option Json :=
  fun u => if u = "http://r" then some doc_c3 else none

/-- C3 single-endpoint root: a child link plus a `/collections` link. -/
def doc_c3b : Json :=
  Json.obj [("links", Json.arr
    [link_s1, Json.obj [("rel", Json.str "data"), ("href", Json.str "http://e/collections")]])]

/-- C3 single-endpoint oracle. -/
def fetch_c3b : String → Option Json :=
  fun u => if u = "http://r" then some doc_c3b else none

/-- C4 scenario: page item with id `x`. -/
def item_x : Json := Json.obj [("id", Json.str "x")]

/-- C4 scenario: page item with id `y`. -/
def item_y : Json := Json.obj [("id", Json.str "y")]

/-- C4 scenario root document: `collections: [{id:x},{id:y}]`, no links. -/
def doc_c4 : Json := Json.obj [("collections", Json.arr [item_x, item_y])]

/-- C4 scenario oracle. -/
def fetch_c4 : String → Option Json :=
  fun u => if u = "http://r" then some doc_c4 else none

/-- C5 counterexample root: child links to `u1` and `u2`. -/
def doc_a5 : Json :=
  Json.obj [("links", Json.arr
    [Json.obj [("rel", Json.str "child"), ("href", Json.str "http://u1")],
     Json.obj [("rel", Json.str "child"), ("href", Json.str "http://u2")]])]

/-- C5 counterexample: the healthy sibling document. -/
def doc_good5 : Json := Json.obj [("stac_version", Json.str "1.0.0")]

/-- C5 counterexample oracle: `u1` answers with a decoded JSON array (valid
JSON, not the expected document shape), `u2` with a recognizable record. -/
def fetch_c5 : String → FetchRes := fun u =>
  if u = "http://a" then FetchRes.doc doc_a5
  else if u = "http://u1" then FetchRes.doc (Json.arr [])
  else if u = "http://u2" then FetchRes.doc doc_good5
  else FetchRes.fail

/-- C5 witness oracle: every fetch is a transport error. -/
def fetch_c5w : String → FetchRes := fun _ => FetchRes.fail

/-- C6 fixture: Phase A always fails at the root fetch. -/
def fetch_c6a : String → Option Json := fun _ => none

/-- C6 federated root: one child link. -/
def doc_c6d : Json :=
  Json.obj [("links", Json.arr
    [Json.obj [("rel", Json.str "child"), ("href", Json.str "http://s6")]])]

/-- C6 federated oracle: the sub-catalog root's fetch always fails. -/
def fetch_c6d : String → Option Json :=
  fun u => if u = "http://r" then some doc_c6d else none

/-- C6 single-endpoint root oracle: empty root document, workers see failures. -/
def fetch_c6c : String → Option Json :=
  fun u => if u = "http://r" then some (Json.obj []) else none

/-- C9 witness probe: every URL would have probed fine. -/
def probe_c9 : String → Option String := fun _ => none

/-- C10 counterexample oracle: the root body decodes to a JSON array. -/
def fetch_c10 : String → FetchRes :=
  fun u => if u = "http://r" then FetchRes.doc (Json.arr []) else FetchRes.fail

/-- C10 witness oracle: one well-shaped catalog document, all else transport
failures. -/
def fetch_c10w : String → FetchRes :=
  fun u => if u = "http://r" then FetchRes.doc (Json.obj [("type", Json.str "Catalog")])
    else FetchRes.fail

/-- C10 witness oracle for the dynamic processing-error branch. -/
def fetch_c10d : String → Option Json := fun _ => none

theorem static_links_inv (resolve : String → String → String) (base : String)
    (links : List Json) :
    ∀ (visited next next' : List String),
      static_links resolve base links visited next = Except.ok next' →
      next.Nodup → (∀ x ∈ next, x ∉ visited) →
      next'.Nodup ∧ (∀ x ∈ next', x ∉ visited) := by
  induction links with
  | nil =>
    intro v next next' h hn hv
    simp only [static_links, Except.ok.injEq] at h
    subst h; exact ⟨hn, hv⟩
  | cons link rest ih =>
    intro v next next' h hn hv
    cases link with
    | null => simp [static_links] at h
    | bool b => simp [static_links] at h
    | num n => simp [static_links] at h
    | str s => simp [static_links] at h
    | arr es => simp [static_links] at h
    | obj lkvs =>
      simp only [static_links] at h
      by_cases hrel : jsonLookup lkvs "rel" = some (Json.str "child") ∨
          jsonLookup lkvs "rel" = some (Json.str "collection")
      · rw [if_pos hrel] at h
        cases hAs : asStr ((jsonLookup lkvs "href").getD (Json.str "")) with
        | error e => rw [hAs] at h; exact absurd h (by simp)
        | ok hrefS =>
          rw [hAs] at h
          dsimp only at h
          by_cases hc : resolve base hrefS ≠ "" ∧ resolve base hrefS ∉ v ∧
              resolve base hrefS ∉ next
          · rw [if_pos hc] at h
            refine ih _ _ _ h ?_ ?_
            · simp [List.nodup_append, hn, hc.2.2]
            · intro x hx
              rcases List.mem_append.mp hx with hx1 | hx2
              · exact hv x hx1
              · simp at hx2; subst hx2; exact hc.2.1
          · rw [if_neg hc] at h
            exact ih _ _ _ h hn hv
      · rw [if_neg hrel] at h
        exact ih _ _ _ h hn hv

theorem static_process_doc_inv (resolve : String → String → String) (base : String)
    (data : Json) :
    ∀ (visited : List String) (cols : List Json) (next : List String)
      (cn : List Json × List String),
      static_process_doc resolve base data visited cols next = Except.ok cn →
      next.Nodup → (∀ x ∈ next, x ∉ visited) →
      (cn.1 = cols ∨ cn.1 = cols ++ [data]) ∧
      cn.2.Nodup ∧ (∀ x ∈ cn.2, x ∉ visited) := by
  intro v cols next cn h hn hv
  cases data with
  | null => simp [static_process_doc] at h
  | bool b => simp [static_process_doc] at h
  | num n => simp [static_process_doc] at h
  | str s => simp [static_process_doc] at h
  | arr es => simp [static_process_doc] at h
  | obj kvs =>
    simp only [static_process_doc] at h
    cases hIt : pyIter ((jsonLookup kvs "links").getD (Json.arr [])) with
    | error e => rw [hIt] at h; exact absurd h (by simp)
    | ok links =>
      rw [hIt] at h
      dsimp only at h
      cases hSL : static_links resolve base links v next with
      | error e => rw [hSL] at h; exact absurd h (by simp)
      | ok next' =>
        rw [hSL] at h
        dsimp only at h
        simp only [Except.ok.injEq] at h
        subst h
        refine ⟨?_, (static_links_inv resolve base links v next next' hSL hn hv).1,
          (static_links_inv resolve base links v next next' hSL hn hv).2⟩
        split
        · exact Or.inr rfl
        · exact Or.inl rfl

theorem static_level_inv (fetch : String → FetchRes) (resolve : String → String → String)
    (toFetch : List String) :
    ∀ (visited : List String) (cols : List Json) (next : List String)
      (cn : List Json × List String),
      static_level fetch resolve toFetch visited cols next = Except.ok cn →
      next.Nodup → (∀ x ∈ next, x ∉ visited) →
      cn.1.length ≤ cols.length + toFetch.length ∧
      cn.2.Nodup ∧ (∀ x ∈ cn.2, x ∉ visited) := by
  induction toFetch with
  | nil =>
    intro v cols next cn h hn hv
    simp only [static_level, Except.ok.injEq] at h
    subst h
    exact ⟨by simp, hn, hv⟩
  | cons url rest ih =>
    intro v cols next cn h hn hv
    simp only [static_level] at h
    cases hf : fetch url with
    | fail =>
      rw [hf] at h
      have := ih v cols next cn h hn hv
      exact ⟨by simpa using Nat.le_succ_of_le this.1, this.2⟩
    | badJson =>
      rw [hf] at h
      have := ih v cols next cn h hn hv
      exact ⟨by simpa using Nat.le_succ_of_le this.1, this.2⟩
    | doc data =>
      rw [hf] at h
      dsimp only at h
      cases hpd : static_process_doc resolve url data v cols next with
      | error e => rw [hpd] at h; exact absurd h (by simp)
      | ok cn0 =>
        rw [hpd] at h
        dsimp only at h
        have h0 := static_process_doc_inv resolve url data v cols next cn0 hpd hn hv
        have h1 := ih v cn0.1 cn0.2 cn h h0.2.1 h0.2.2
        refine ⟨?_, h1.2⟩
        have hlen : cn0.1.length ≤ cols.length + 1 := by
          rcases h0.1 with he | he <;> simp [he]
        calc cn.1.length ≤ cn0.1.length + rest.length := h1.1
          _ ≤ cols.length + 1 + rest.length := by omega
          _ = cols.length + (url :: rest).length := by simp; omega

theorem static_level_skip (fetch : String → FetchRes) (resolve : String → String → String)
    (url : String) (hu : fetch url = FetchRes.fail ∨ fetch url = FetchRes.badJson)
    (pre : List String) :
    ∀ (post visited : List String) (cols : List Json) (next : List String),
      static_level fetch resolve (pre ++ url :: post) visited cols next =
      static_level fetch resolve (pre ++ post) visited cols next := by
  induction pre with
  | nil =>
    intro post v cols next
    rcases hu with h | h <;> simp [static_level, h]
  | cons p pre ih =>
    intro post v cols next
    simp only [List.cons_append, static_level]
    cases fetch p with
    | fail => exact ih post v cols next
    | badJson => exact ih post v cols next
    | doc data =>
      dsimp only
      cases static_process_doc resolve p data v cols next with
      | error e => rfl
      | ok cn0 => exact ih post v cn0.1 cn0.2

theorem static_links_ok (resolve : String → String → String) (base : String)
    (links : List Json) :
    ∀ (visited next : List String), links.all static_link_ok = true →
      ∃ next', static_links resolve base links visited next = Except.ok next' := by
  induction links with
  | nil => intro v next _; exact ⟨next, rfl⟩
  | cons link rest ih =>
    intro v next hall
    simp only [List.all_cons, Bool.and_eq_true] at hall
    cases link with
    | null => simp [static_link_ok] at hall
    | bool b => simp [static_link_ok] at hall
    | num n => simp [static_link_ok] at hall
    | str s => simp [static_link_ok] at hall
    | arr es => simp [static_link_ok] at hall
    | obj lkvs =>
      simp only [static_links]
      by_cases hrel : jsonLookup lkvs "rel" = some (Json.str "child") ∨
          jsonLookup lkvs "rel" = some (Json.str "collection")
      · rw [if_pos hrel]
        have hstr : ∃ s, (jsonLookup lkvs "href").getD (Json.str "") = Json.str s := by
          have h1 := hall.1
          simp only [static_link_ok, if_pos hrel] at h1
          cases hh : (jsonLookup lkvs "href").getD (Json.str "") <;>
            rw [hh] at h1 <;> first | exact ⟨_, rfl⟩ | exact absurd h1 (by simp)
        obtain ⟨s, hs⟩ := hstr
        rw [hs]
        simp only [asStr]
        split
        · exact ih v _ hall.2
        · exact ih v next hall.2
      · rw [if_neg hrel]
        exact ih v next hall.2

theorem static_process_doc_ok (resolve : String → String → String) (base : String)
    (data : Json) (hdoc : static_doc_ok data = true) :
    ∀ (visited : List String) (cols : List Json) (next : List String),
      ∃ cn, static_process_doc resolve base data visited cols next = Except.ok cn := by
  intro v cols next
  cases data with
  | null => simp [static_doc_ok] at hdoc
  | bool b => simp [static_doc_ok] at hdoc
  | num n => simp [static_doc_ok] at hdoc
  | str s => simp [static_doc_ok] at hdoc
  | arr es => simp [static_doc_ok] at hdoc
  | obj kvs =>
    simp only [static_doc_ok] at hdoc
    simp only [static_process_doc]
    cases hIt : pyIter ((jsonLookup kvs "links").getD (Json.arr [])) with
    | error e => rw [hIt] at hdoc; exact absurd hdoc (by simp)
    | ok links =>
      rw [hIt] at hdoc
      dsimp only at hdoc
      obtain ⟨next', hn⟩ := static_links_ok resolve base links v next hdoc
      dsimp only
      rw [hn]
      exact ⟨_, rfl⟩

theorem static_level_ok (fetch : String → FetchRes) (resolve : String → String → String)
    (hok : ∀ u, static_fetch_ok (fetch u) = true) (toFetch : List String) :
    ∀ (visited : List String) (cols : List Json) (next : List String),
      ∃ cn, static_level fetch resolve toFetch visited cols next = Except.ok cn := by
  induction toFetch with
  | nil => intro v cols next; exact ⟨(cols, next), rfl⟩
  | cons url rest ih =>
    intro v cols next
    simp only [static_level]
    cases hf : fetch url with
    | fail => exact ih v cols next
    | badJson => exact ih v cols next
    | doc data =>
      have hd : static_doc_ok data = true := by
        have := hok url
        rw [hf] at this
        exact this
      obtain ⟨cn0, h0⟩ := static_process_doc_ok resolve url data hd v cols next
      dsimp only
      rw [h0]
      exact ih v cn0.1 cn0.2

theorem static_loop_levels_length (fetch : String → FetchRes)
    (resolve : String → String → String) (hard : Nat) :
    ∀ (fuel : Nat) (toFetch visited : List String) (cols : List Json),
      (static_loop fetch resolve hard fuel toFetch visited cols).levels.length ≤ fuel := by
  intro fuel
  induction fuel with
  | zero => intro tf v cols; simp [static_loop]
  | succ n ih =>
    intro tf v cols
    simp only [static_loop]
    split
    · simp
    · cases static_level fetch resolve tf (v ++ tf) cols [] with
      | error e => simp
      | ok cn =>
        simp only [List.length_cons]
        exact Nat.succ_le_succ (ih cn.2 (v ++ tf) cn.1)

theorem static_loop_nodup (fetch : String → FetchRes)
    (resolve : String → String → String) (hard : Nat) :
    ∀ (fuel : Nat) (toFetch visited : List String) (cols : List Json),
      toFetch.Nodup → (∀ x ∈ toFetch, x ∉ visited) →
      (static_loop fetch resolve hard fuel toFetch visited cols).levels.flatten.Nodup ∧
      (∀ x ∈ (static_loop fetch resolve hard fuel toFetch visited cols).levels.flatten,
        x ∉ visited) := by
  intro fuel
  induction fuel with
  | zero => intro tf v cols _ _; simp [static_loop]
  | succ n ih =>
    intro tf v cols htf hfresh
    simp only [static_loop]
    split
    · simp
    · cases hsl : static_level fetch resolve tf (v ++ tf) cols [] with
      | error e => simpa using ⟨htf, hfresh⟩
      | ok cn =>
        have hinv := static_level_inv fetch resolve tf (v ++ tf) cols [] cn hsl
          (by simp) (by simp)
        have hih := ih cn.2 (v ++ tf) cn.1 hinv.2.1 hinv.2.2
        simp only [List.flatten_cons]
        constructor
        · rw [List.nodup_append]
          refine ⟨htf, hih.1, ?_⟩
          intro x hx hx2
          exact hih.2 x hx2 (List.mem_append_right v hx)
        · intro x hx
          rcases List.mem_append.mp hx with h1 | h2
          · exact hfresh x h1
          · intro hv
            exact hih.2 x h2 (List.mem_append_left tf hv)

theorem static_loop_count (fetch : String → FetchRes)
    (resolve : String → String → String) (hard : Nat) :
    ∀ (fuel : Nat) (toFetch visited : List String) (cols : List Json),
      (static_loop fetch resolve hard fuel toFetch visited cols).collections.length ≤
        max cols.length
          (hard + max_level_width (static_loop fetch resolve hard fuel toFetch visited cols).levels) := by
  intro fuel
  induction fuel with
  | zero => intro tf v cols; simp [static_loop]
  | succ n ih =>
    intro tf v cols
    simp only [static_loop]
    split
    · simp
    · rename_i hguard
      have hlt : cols.length < hard := by
        rcases Nat.lt_or_ge cols.length hard with h | h
        · exact h
        · exact absurd (Or.inr h) hguard
      cases hsl : static_level fetch resolve tf (v ++ tf) cols [] with
      | error e =>
        simp only [max_level_width, List.foldr_cons, List.foldr_nil]
        omega
      | ok cn =>
        have hinv := static_level_inv fetch resolve tf (v ++ tf) cols [] cn hsl
          (by simp) (by simp)
        have hih := ih cn.2 (v ++ tf) cn.1
        simp only [max_level_width, List.foldr_cons] at *
        omega

theorem static_loop_no_crash (fetch : String → FetchRes)
    (resolve : String → String → String) (hard : Nat)
    (hok : ∀ u, static_fetch_ok (fetch u) = true) :
    ∀ (fuel : Nat) (toFetch visited : List String) (cols : List Json),
      (static_loop fetch resolve hard fuel toFetch visited cols).crashed = false := by
  intro fuel
  induction fuel with
  | zero => intro tf v cols; simp [static_loop]
  | succ n ih =>
    intro tf v cols
    simp only [static_loop]
    split
    · rfl
    · obtain ⟨cn, hcn⟩ := static_level_ok fetch resolve hok tf (v ++ tf) cols []
      rw [hcn]
      exact ih cn.2 (v ++ tf) cn.1

theorem worker_links_ext (resolve : String → String → String) (base : String)
    (links : List Json) :
    ∀ (visited queue : List String),
      ∃ new, worker_links resolve base links visited queue = (visited ++ new, queue ++ new) ∧
        new.Nodup ∧ (∀ x ∈ new, x ∉ visited) := by
  induction links with
  | nil => intro v q; exact ⟨[], by simp [worker_links], by simp, by simp⟩
  | cons link rest ih =>
    intro v q
    cases link with
    | null => exact ⟨[], by simp [worker_links], by simp, by simp⟩
    | bool b => exact ⟨[], by simp [worker_links], by simp, by simp⟩
    | num n => exact ⟨[], by simp [worker_links], by simp, by simp⟩
    | str s => exact ⟨[], by simp [worker_links], by simp, by simp⟩
    | arr es => exact ⟨[], by simp [worker_links], by simp, by simp⟩
    | obj lkvs =>
      simp only [worker_links]
      by_cases hrel : jsonLookup lkvs "rel" = some (Json.str "child") ∨
          jsonLookup lkvs "rel" = some (Json.str "data") ∨
          jsonLookup lkvs "rel" = some (Json.str "collection") ∨
          jsonLookup lkvs "rel" = some (Json.str "children")
      · rw [if_pos hrel]
        cases hAs : asStr ((jsonLookup lkvs "href").getD (Json.str "")) with
        | error e => exact ⟨[], by simp, by simp, by simp⟩
        | ok hrefS =>
          dsimp only
          by_cases hc : resolve base hrefS ≠ "" ∧ resolve base hrefS ∉ v ∧
              strEndsWith (resolve base hrefS) ".json" = false
          · rw [if_pos hc]
            obtain ⟨new, hw, hnd, hfresh⟩ :=
              ih (v ++ [resolve base hrefS]) (q ++ [resolve base hrefS])
            refine ⟨resolve base hrefS :: new, ?_, ?_, ?_⟩
            · rw [hw]; simp
            · exact List.nodup_cons.mpr
                ⟨fun hmem => hfresh _ hmem (by simp), hnd⟩
            · intro x hx
              rcases List.mem_cons.mp hx with hx1 | hx2
              · subst hx1; exact hc.2.1
              · intro hxv
                exact hfresh x hx2 (List.mem_append_left _ hxv)
          · rw [if_neg hc]
            exact ih v q
      · rw [if_neg hrel]
        exact ih v q

theorem worker_step_ext (resolve : String → String → String) (url : String)
    (kvs : List (String × Json)) :
    ∀ (visited queue : List String) (unique : List (Json × Json)) (limit : Nat),
      ∃ new, (worker_step resolve url kvs visited queue unique limit).visited = visited ++ new ∧
        (worker_step resolve url kvs visited queue unique limit).queue = queue ++ new ∧
        new.Nodup ∧ (∀ x ∈ new, x ∉ visited) := by
  intro v q u l
  simp only [worker_step]
  cases hIt : pyIter ((jsonLookup kvs "links").getD (Json.arr [])) with
  | error e => exact ⟨[], by simp, by simp, by simp, by simp⟩
  | ok links =>
    dsimp only
    obtain ⟨new, hw, hnd, hfresh⟩ := worker_links_ext resolve url links v q
    exact ⟨new, by rw [hw], by rw [hw], hnd, hfresh⟩

theorem worker_loop_nodup (fetch : String → Option Json)
    (resolve : String → String → String) :
    ∀ (fuel : Nat) (queue visited : List String) (unique : List (Json × Json)) (limit : Nat),
      queue.Nodup → (∀ x ∈ queue, x ∈ visited) →
      (worker_loop fetch resolve fuel queue visited unique limit).fetched.Nodup ∧
      (∀ x ∈ (worker_loop fetch resolve fuel queue visited unique limit).fetched,
        x ∈ queue ∨ x ∉ visited) := by
  intro fuel
  induction fuel with
  | zero => intro q v u l _ _; simp [worker_loop]
  | succ n ih =>
    intro q v u l hq hsub
    cases q with
    | nil => simp [worker_loop]
    | cons url rest =>
      simp only [worker_loop]
      split
      · simp
      · cases hf : fetch url with
        | none =>
          have hih := ih rest v u l (List.nodup_cons.mp hq).2
            (fun x hx => hsub x (List.mem_cons_of_mem url hx))
          dsimp only
          constructor
          · refine List.nodup_cons.mpr ⟨?_, hih.1⟩
            intro hmem
            rcases hih.2 url hmem with h1 | h2
            · exact (List.nodup_cons.mp hq).1 h1
            · exact h2 (hsub url (List.mem_cons_self url rest))
          · intro x hx
            rcases List.mem_cons.mp hx with hx1 | hx2
            · subst hx1; exact Or.inl (List.mem_cons_self _ _)
            · rcases hih.2 x hx2 with h1 | h2
              · exact Or.inl (List.mem_cons_of_mem url h1)
              · exact Or.inr h2
        | some data =>
          cases data with
          | obj kvs =>
            obtain ⟨new, hv, hqe, hnd, hfresh⟩ := worker_step_ext resolve url kvs v rest u l
            have hq2 : ((worker_step resolve url kvs v rest u l).queue).Nodup := by
              rw [hqe]
              rw [List.nodup_append]
              refine ⟨(List.nodup_cons.mp hq).2, hnd, ?_⟩
              intro x hx hx2
              exact hfresh x hx2 (hsub x (List.mem_cons_of_mem url hx))
            have hsub2 : ∀ x ∈ (worker_step resolve url kvs v rest u l).queue,
                x ∈ (worker_step resolve url kvs v rest u l).visited := by
              rw [hqe, hv]
              intro x hx
              rcases List.mem_append.mp hx with h1 | h2
              · exact List.mem_append_left _ (hsub x (List.mem_cons_of_mem url h1))
              · exact List.mem_append_right _ h2
            have hih := ih (worker_step resolve url kvs v rest u l).queue
              (worker_step resolve url kvs v rest u l).visited
              (worker_step resolve url kvs v rest u l).unique
              (worker_step resolve url kvs v rest u l).dynamic_limit hq2 hsub2
            dsimp only
            constructor
            · refine List.nodup_cons.mpr ⟨?_, hih.1⟩
              intro hmem
              rcases hih.2 url hmem with h1 | h2
              · rw [hqe] at h1
                rcases List.mem_append.mp h1 with g1 | g2
                · exact (List.nodup_cons.mp hq).1 g1
                · exact hfresh url g2 (hsub url (List.mem_cons_self url rest))
              · rw [hv] at h2
                exact h2 (List.mem_append_left _ (hsub url (List.mem_cons_self url rest)))
            · intro x hx
              rcases List.mem_cons.mp hx with hx1 | hx2
              · subst hx1; exact Or.inl (List.mem_cons_self _ _)
              · rcases hih.2 x hx2 with h1 | h2
                · rw [hqe] at h1
                  rcases List.mem_append.mp h1 with g1 | g2
                  · exact Or.inl (List.mem_cons_of_mem url g1)
                  · exact Or.inr (hfresh x g2)
                · rw [hv] at h2
                  exact Or.inr (fun hxv => h2 (List.mem_append_left _ hxv))
          | null =>
            have hih := ih rest v u l (List.nodup_cons.mp hq).2
              (fun x hx => hsub x (List.mem_cons_of_mem url hx))
            dsimp only
            constructor
            · refine List.nodup_cons.mpr ⟨?_, hih.1⟩
              intro hmem
              rcases hih.2 url hmem with h1 | h2
              · exact (List.nodup_cons.mp hq).1 h1
              · exact h2 (hsub url (List.mem_cons_self url rest))
            · intro x hx
              rcases List.mem_cons.mp hx with hx1 | hx2
              · subst hx1; exact Or.inl (List.mem_cons_self _ _)
              · rcases hih.2 x hx2 with h1 | h2
                · exact Or.inl (List.mem_cons_of_mem url h1)
                · exact Or.inr h2
          | bool b =>
            have hih := ih rest v u l (List.nodup_cons.mp hq).2
              (fun x hx => hsub x (List.mem_cons_of_mem url hx))
            dsimp only
            constructor
            · refine List.nodup_cons.mpr ⟨?_, hih.1⟩
              intro hmem
              rcases hih.2 url hmem with h1 | h2
              · exact (List.nodup_cons.mp hq).1 h1
              · exact h2 (hsub url (List.mem_cons_self url rest))
            · intro x hx
              rcases List.mem_cons.mp hx with hx1 | hx2
              · subst hx1; exact Or.inl (List.mem_cons_self _ _)
              · rcases hih.2 x hx2 with h1 | h2
                · exact Or.inl (List.mem_cons_of_mem url h1)
                · exact Or.inr h2
          | num m =>
            have hih := ih rest v u l (List.nodup_cons.mp hq).2
              (fun x hx => hsub x (List.mem_cons_of_mem url hx))
            dsimp only
            constructor
            · refine List.nodup_cons.mpr ⟨?_, hih.1⟩
              intro hmem
              rcases hih.2 url hmem with h1 | h2
              · exact (List.nodup_cons.mp hq).1 h1
              · exact h2 (hsub url (List.mem_cons_self url rest))
            · intro x hx
              rcases List.mem_cons.mp hx with hx1 | hx2
              · subst hx1; exact Or.inl (List.mem_cons_self _ _)
              · rcases hih.2 x hx2 with h1 | h2
                · exact Or.inl (List.mem_cons_of_mem url h1)
                · exact Or.inr h2
          | str s =>
            have hih := ih rest v u l (List.nodup_cons.mp hq).2
              (fun x hx => hsub x (List.mem_cons_of_mem url hx))
            dsimp only
            constructor
            · refine List.nodup_cons.mpr ⟨?_, hih.1⟩
              intro hmem
              rcases hih.2 url hmem with h1 | h2
              · exact (List.nodup_cons.mp hq).1 h1
              · exact h2 (hsub url (List.mem_cons_self url rest))
            · intro x hx
              rcases List.mem_cons.mp hx with hx1 | hx2
              · subst hx1; exact Or.inl (List.mem_cons_self _ _)
              · rcases hih.2 x hx2 with h1 | h2
                · exact Or.inl (List.mem_cons_of_mem url h1)
                · exact Or.inr h2
          | arr es =>
            have hih := ih rest v u l (List.nodup_cons.mp hq).2
              (fun x hx => hsub x (List.mem_cons_of_mem url hx))
            dsimp only
            constructor
            · refine List.nodup_cons.mpr ⟨?_, hih.1⟩
              intro hmem
              rcases hih.2 url hmem with h1 | h2
              · exact (List.nodup_cons.mp hq).1 h1
              · exact h2 (hsub url (List.mem_cons_self url rest))
            · intro x hx
              rcases List.mem_cons.mp hx with hx1 | hx2
              · subst hx1; exact Or.inl (List.mem_cons_self _ _)
              · rcases hih.2 x hx2 with h1 | h2
                · exact Or.inl (List.mem_cons_of_mem url h1)
                · exact Or.inr h2

theorem dict_get_upsert_self : ∀ (m : List (Json × Json)) (k v : Json),
    dict_get (upsert m k v) k = some v := by
  intro m k v
  induction m with
  | nil => simp [upsert, dict_get]
  | cons p rest ih =>
    by_cases hpk : p.1 = k
    · simp [upsert, List.any_cons, hpk, dict_get]
    · by_cases hany : rest.any (fun q => decide (q.1 = k)) = true
      · have h1 : upsert (p :: rest) k v =
            (p :: rest).map (fun q => if q.1 = k then (k, v) else q) := by
          simp [upsert, List.any_cons, hpk, hany]
        have h2 : upsert rest k v =
            rest.map (fun q => if q.1 = k then (k, v) else q) := by
          simp [upsert, hany]
        rw [h1]
        simp only [List.map_cons, if_neg hpk, dict_get]
        rw [← h2, ih]
      · have h1 : upsert (p :: rest) k v = p :: (rest ++ [(k, v)]) := by
          simp [upsert, List.any_cons, hpk, hany]
        have h2 : upsert rest k v = rest ++ [(k, v)] := by
          simp [upsert, hany]
        rw [h1]
        simp only [dict_get]
        rw [if_neg hpk, ← h2, ih]

theorem dict_get_map_other : ∀ (m : List (Json × Json)) (k k2 v : Json), k2 ≠ k →
    dict_get (m.map (fun q => if q.1 = k then (k, v) else q)) k2 = dict_get m k2 := by
  intro m k k2 v hne
  induction m with
  | nil => rfl
  | cons p rest ih =>
    by_cases hpk : p.1 = k
    · simp only [List.map_cons, if_pos hpk, dict_get]
      rw [if_neg (fun he => hne he.symm), if_neg (fun he => hne (hpk ▸ he).symm)]
      exact ih
    · simp only [List.map_cons, if_neg hpk, dict_get]
      by_cases hp2 : p.1 = k2
      · rw [if_pos hp2, if_pos hp2]
      · rw [if_neg hp2, if_neg hp2]
        exact ih

theorem dict_get_append_single : ∀ (m : List (Json × Json)) (k k2 v : Json), k2 ≠ k →
    dict_get (m ++ [(k, v)]) k2 = dict_get m k2 := by
  intro m k k2 v hne
  induction m with
  | nil =>
    simp only [List.nil_append, dict_get]
    rw [if_neg (fun he => hne he.symm)]
  | cons p rest ih =>
    simp only [List.cons_append, dict_get]
    by_cases hp2 : p.1 = k2
    · rw [if_pos hp2, if_pos hp2]
    · rw [if_neg hp2, if_neg hp2]
      exact ih

theorem dict_get_upsert_other : ∀ (m : List (Json × Json)) (k k2 v : Json), k2 ≠ k →
    dict_get (upsert m k v) k2 = dict_get m k2 := by
  intro m k k2 v hne
  by_cases hany : (m.any fun q => decide (q.1 = k)) = true
  · have h1 : upsert m k v = m.map (fun q => if q.1 = k then (k, v) else q) := by
      simp [upsert, hany]
    rw [h1]
    exact dict_get_map_other m k k2 v hne
  · have h1 : upsert m k v = m ++ [(k, v)] := by
      simp [upsert, hany]
    rw [h1]
    exact dict_get_append_single m k k2 v hne

theorem worker_collections_get : ∀ (items : List Json) (unique : List (Json × Json)) (k : Json),
    dict_get (worker_collections items unique) k =
      match last_with_id k items with
      | some it => some it
      | none => dict_get unique k := by
  intro items
  induction items with
  | nil => intro u k; rfl
  | cons item rest ih =>
    intro u k
    cases item with
    | obj ikvs =>
      cases hl : jsonLookup ikvs "id" with
      | none =>
        have hwc : worker_collections (Json.obj ikvs :: rest) u = worker_collections rest u := by
          simp [worker_collections, hl]
        have hid : id_of (Json.obj ikvs) = none := by simp [id_of, hl]
        rw [hwc, ih u k]
        simp only [last_with_id, hid]
        cases last_with_id k rest <;> simp
      | some idv =>
        have hwc : worker_collections (Json.obj ikvs :: rest) u =
            worker_collections rest (upsert u idv (Json.obj ikvs)) := by
          simp [worker_collections, hl]
        have hid : id_of (Json.obj ikvs) = some idv := by simp [id_of, hl]
        rw [hwc, ih (upsert u idv (Json.obj ikvs)) k]
        simp only [last_with_id, hid]
        cases hlast : last_with_id k rest with
        | some it => simp
        | none =>
          by_cases hik : idv = k
          · subst hik
            simp only [Option.some.injEq, if_pos rfl]
            exact dict_get_upsert_self u idv (Json.obj ikvs)
          · rw [if_neg (by simpa using fun he => hik he)]
            exact dict_get_upsert_other u idv k (Json.obj ikvs) (fun he => hik he.symm)
    | null =>
      have hwc : worker_collections (Json.null :: rest) u = worker_collections rest u := by
        simp [worker_collections]
      rw [hwc, ih u k]
      simp only [last_with_id, id_of]
      cases last_with_id k rest <;> simp
    | bool b =>
      have hwc : worker_collections (Json.bool b :: rest) u = worker_collections rest u := by
        simp [worker_collections]
      rw [hwc, ih u k]
      simp only [last_with_id, id_of]
      cases last_with_id k rest <;> simp
    | num n =>
      have hwc : worker_collections (Json.num n :: rest) u = worker_collections rest u := by
        simp [worker_collections]
      rw [hwc, ih u k]
      simp only [last_with_id, id_of]
      cases last_with_id k rest <;> simp
    | str s =>
      have hwc : worker_collections (Json.str s :: rest) u = worker_collections rest u := by
        simp [worker_collections]
      rw [hwc, ih u k]
      simp only [last_with_id, id_of]
      cases last_with_id k rest <;> simp
    | arr es =>
      have hwc : worker_collections (Json.arr es :: rest) u = worker_collections rest u := by
        simp [worker_collections]
      rw [hwc, ih u k]
      simp only [last_with_id, id_of]
      cases last_with_id k rest <;> simp

theorem federated_loop_calls (fetch : String → Option Json)
    (resolve : String → String → String) (fuel : Nat) (s : String) :
    ∀ (cls : List Json) (hs : List String),
      resolved_child_hrefs resolve s cls = Except.ok hs →
      (∀ x ∈ hs, x ≠ "") →
      (federated_loop fetch resolve fuel s cls).worker_calls =
        hs.filter (fun x => !strEndsWith x ".json") ∧
      (federated_loop fetch resolve fuel s cls).crashed = false := by
  intro cls
  induction cls with
  | nil =>
    intro hs h hne
    simp only [resolved_child_hrefs, Except.ok.injEq] at h
    subst h
    simp [federated_loop]
  | cons l rest ih =>
    intro hs h hne
    cases l with
    | null => simp [resolved_child_hrefs] at h
    | bool b => simp [resolved_child_hrefs] at h
    | num n => simp [resolved_child_hrefs] at h
    | str s0 => simp [resolved_child_hrefs] at h
    | arr es => simp [resolved_child_hrefs] at h
    | obj lkvs =>
      simp only [resolved_child_hrefs] at h
      cases hAs : asStr ((jsonLookup lkvs "href").getD (Json.str "")) with
      | error e => rw [hAs] at h; exact absurd h (by simp)
      | ok s0 =>
        rw [hAs] at h
        dsimp only at h
        cases hr : resolved_child_hrefs resolve s rest with
        | error e => rw [hr] at h; exact absurd h (by simp)
        | ok hs2 =>
          rw [hr] at h
          dsimp only at h
          simp only [Except.ok.injEq] at h
          subst h
          simp only [federated_loop]
          rw [hAs]
          dsimp only
          have hne0 : resolve s s0 ≠ "" := hne _ (List.mem_cons_self _ _)
          have htail := ih hs2 hr (fun x hx => hne x (List.mem_cons_of_mem _ hx))
          rcases Bool.eq_false_or_eq_true (strEndsWith (resolve s s0) ".json") with hj | hj
          · rw [if_neg (by simp [hj])]
            constructor
            · simp only [List.filter_cons, hj, Bool.not_true]
              simp only [Bool.false_eq_true, if_false]
              exact htail.1
            · exact htail.2
          · rw [if_pos ⟨hne0, hj⟩]
            constructor
            · simp only [List.filter_cons, hj, Bool.not_false, if_pos]
              rw [htail.1]
            · exact htail.2

/-- C1 (amended): within one invocation of the Link-Graph engine no URL is
fetched twice, and within one Phase B worker invocation no URL is fetched
twice; the claim's further assertion — that this also holds across the
Paginated/Federated engine's Phase A root fetch and its Phase B workers —
fails (see the counterexample): the single-endpoint branch re-fetches the
Phase A root inside the worker. -/
theorem c1_visited_once :
    (∀ (fetch : String → FetchRes) (resolve : String → String → String)
       (start_url : String) (max_depth hard_limit : Nat),
       (static_fetched (harvest_static_catalog fetch resolve start_url max_depth
         hard_limit)).Nodup) ∧
    (∀ (fetch : String → Option Json) (resolve : String → String → String)
       (fuel : Nat) (start_url : String),
       (_dynamic_worker fetch resolve fuel start_url).fetched.Nodup) := by
  constructor
  · intro fetch resolve s d h
    exact (static_loop_nodup fetch resolve h d [s] [] [] (by simp) (by simp)).1
  · intro fetch resolve fuel s
    exact (worker_loop_nodup fetch resolve fuel [s] [s] [] 0 (by simp) (by simp)).1

/-- C1 counterexample: a Paginated/Federated invocation whose root document has
no links takes the single-endpoint branch and fetches the root URL twice —
once in Phase A and once as the worker's first dequeue. -/
theorem c1_counterexample :
    (harvest_dynamic_catalog fetch_c1 resolve_id 5 "http://r").fetched =
      ["http://r", "http://r"] ∧
    ¬ (harvest_dynamic_catalog fetch_c1 resolve_id 5 "http://r").fetched.Nodup := by
  refine ⟨rfl, ?_⟩
  intro h
  rw [show (harvest_dynamic_catalog fetch_c1 resolve_id 5 "http://r").fetched =
    ["http://r", "http://r"] from rfl] at h
  simp at h

/-- C2 (amended): in the A→{B,C} scenario with `maxDepth=2, hardLimit=300` the
Link-Graph engine returns exactly the records of `B` and `C`, but the note
list is not empty: the loop's final depth equals `maxDepth`, so the depth
note fires even though the frontier is also exhausted. -/
theorem c2_link_graph_scenario :
    static_result (harvest_static_catalog fetch_c2 resolve_id "http://a" 2 300) =
      Except.ok ([doc_b2, doc_c2], ["Reached depth limit of 2."]) := rfl

/-- C2 counterexample: the scenario does yield the 2 records, but the claimed
empty note list is wrong — the depth-limit note is emitted. -/
theorem c2_counterexample :
    (harvest_static_catalog fetch_c2 resolve_id "http://a" 2 300).collections =
      [doc_b2, doc_c2] ∧
    (harvest_static_catalog fetch_c2 resolve_id "http://a" 2 300).crawl_notes ≠ [] := by
  refine ⟨rfl, ?_⟩
  intro h
  rw [show (harvest_static_catalog fetch_c2 resolve_id "http://a" 2 300).crawl_notes =
    ["Reached depth limit of 2."] from rfl] at h
  simp at h

/-- C7: for every link graph and `maxDepth = d`, the Link-Graph engine's level
loop runs at most `d` iterations, so every fetched frontier is one of the
first `d` BFS levels and no URL discovered at a deeper level is fetched. -/
theorem c7_depth_bound :
    ∀ (fetch : String → FetchRes) (resolve : String → String → String)
      (start_url : String) (max_depth hard_limit : Nat),
      (harvest_static_catalog fetch resolve start_url max_depth
        hard_limit).levels.length ≤ max_depth := by
  intro fetch resolve s d h
  exact static_loop_levels_length fetch resolve h d [s] [] []

/-- C8: the Link-Graph engine's final record count never exceeds
`hardLimit + (the maximum number of URLs fetched in a single level)`: the
hard limit is checked only between levels and each fetched document
contributes at most one record. -/
theorem c8_overshoot_bound :
    ∀ (fetch : String → FetchRes) (resolve : String → String → String)
      (start_url : String) (max_depth hard_limit : Nat),
      (harvest_static_catalog fetch resolve start_url max_depth
        hard_limit).collections.length ≤
        hard_limit + max_level_width
          (harvest_static_catalog fetch resolve start_url max_depth hard_limit).levels := by
  intro fetch resolve s d h
  have := static_loop_count fetch resolve h d [s] [] []
  simp only [List.length_nil, Nat.zero_max] at this
  exact this

/-- C5 (amended): a frontier URL whose fetch ends in a transport error or whose
body fails JSON decoding contributes no record and no links, and the other
URLs of the level are processed exactly as if it were absent; the claim's
wider reading fails (see the counterexample): a body that decodes to a
non-dict JSON value raises an uncaught error that aborts the whole
traversal. -/
theorem c5_fetch_failures_skipped :
    ∀ (fetch : String → FetchRes) (resolve : String → String → String) (url : String),
      (fetch url = FetchRes.fail ∨ fetch url = FetchRes.badJson) →
      ∀ (pre post visited : List String) (cols : List Json) (next : List String),
        static_level fetch resolve (pre ++ url :: post) visited cols next =
        static_level fetch resolve (pre ++ post) visited cols next :=
  fun fetch resolve url hu pre post v cols next =>
    static_level_skip fetch resolve url hu pre post v cols next

/-- C5 witness: a concrete frontier with a transport-failing URL in the middle
is processed exactly like the frontier without it. -/
theorem c5_witness :
    (fetch_c5w "http://x" = FetchRes.fail ∨ fetch_c5w "http://x" = FetchRes.badJson) ∧
    static_level fetch_c5w resolve_id (["http://p"] ++ "http://x" :: ["http://q"]) [] [] [] =
      static_level fetch_c5w resolve_id (["http://p"] ++ ["http://q"]) [] [] [] :=
  ⟨Or.inl rfl,
   c5_fetch_failures_skipped fetch_c5w resolve_id "http://x" (Or.inl rfl)
     ["http://p"] ["http://q"] [] [] []⟩

/-- C5 counterexample: `u1`'s body decodes to a JSON array — not the expected
document shape — and the whole traversal aborts, so `u2`'s recognizable
record is lost: the failing URL is not merely skipped and the other URLs of
its level are affected. -/
theorem c5_counterexample :
    fetch_c5 "http://u2" = FetchRes.doc doc_good5 ∧
    (harvest_static_catalog fetch_c5 resolve_id "http://a" 3 300).crashed = true ∧
    static_result (harvest_static_catalog fetch_c5 resolve_id "http://a" 3 300) =
      Except.error () := ⟨rfl, rfl, rfl⟩

/-- C10 (amended): `harvest_static_catalog` never returns `None` — whenever
every fetched body is a transport failure, a JSON-decode failure, or a
well-shaped dict document, it returns its `(records, notes)` pair — and the
coordinator's processing-error branch is unreachable for static endpoints
(it is reached exactly by the dynamic engine's `None`); but on a body that
decodes to a non-dict value the static engine raises instead of returning
(see the counterexample). -/
theorem c10_no_none_result :
    (∀ (fetch : String → FetchRes) (resolve : String → String → String)
       (start_url : String) (max_depth hard_limit : Nat),
       (∀ u, static_fetch_ok (fetch u) = true) →
       static_result (harvest_static_catalog fetch resolve start_url max_depth hard_limit) =
         Except.ok
           ((harvest_static_catalog fetch resolve start_url max_depth hard_limit).collections,
            (harvest_static_catalog fetch resolve start_url max_depth hard_limit).crawl_notes)) ∧
    (∀ (fetch : String → FetchRes) (resolve : String → String → String)
       (start_url : String) (max_depth hard_limit : Nat),
       process_endpoint_static fetch resolve start_url max_depth hard_limit ≠
         Outcome.processing_error) ∧
    (∀ (fetch : String → Option Json) (resolve : String → String → String)
       (fuel : Nat) (start_url : String),
       fetch start_url = none →
       process_endpoint_dynamic fetch resolve fuel start_url = Outcome.processing_error) := by
  refine ⟨?_, ?_, ?_⟩
  · intro fetch resolve s d h hok
    have hc : (harvest_static_catalog fetch resolve s d h).crashed = false :=
      static_loop_no_crash fetch resolve h hok d [s] [] []
    simp [static_result, hc]
  · intro fetch resolve s d h
    simp only [process_endpoint_static]
    cases static_result (harvest_static_catalog fetch resolve s d h) with
    | error e => simp
    | ok cn =>
      dsimp only
      split <;> simp
  · intro fetch resolve fuel s hf
    simp [process_endpoint_dynamic, harvest_dynamic_catalog, hf]

/-- C10 counterexample: on a root body that decodes to a JSON array,
`harvest_static_catalog` does not return a `(records, notes)` pair — the
invocation ends in an escaped exception. -/
theorem c10_counterexample :
    static_result (harvest_static_catalog fetch_c10 resolve_id "http://r" 3 300) =
      Except.error () ∧
    (harvest_static_catalog fetch_c10 resolve_id "http://r" 3 300).crashed = true :=
  ⟨rfl, rfl⟩

/-- C10 witness: a concrete well-shaped run returns its pair, and a concrete
dynamic root-fetch failure reaches the coordinator's processing-error
branch. -/
theorem c10_witness :
    static_result (harvest_static_catalog fetch_c10w resolve_id "http://r" 3 300) =
      Except.ok
        ((harvest_static_catalog fetch_c10w resolve_id "http://r" 3 300).collections,
         (harvest_static_catalog fetch_c10w resolve_id "http://r" 3 300).crawl_notes) ∧
    process_endpoint_dynamic fetch_c10d resolve_id 5 "http://r" =
      Outcome.processing_error := by
  constructor
  · exact c10_no_none_result.1 fetch_c10w resolve_id "http://r" 3 300
      (fun u => by simp only [fetch_c10w]; split <;> rfl)
  · exact c10_no_none_result.2.2 fetch_c10d resolve_id 5 "http://r" rfl

/-- C3: with a successfully fetched and inspected root, the engine takes the
federated branch exactly when there is at least one child link and no
`/collections`-suffixed link, invoking the worker once per child link whose
resolved (non-empty) href does not end in `.json`; otherwise it takes the
single-endpoint branch and invokes the worker exactly once on the root URL,
regardless of how many child links exist. -/
theorem c3_federation_branch :
    (∀ (fetch : String → Option Json) (resolve : String → String → String)
       (fuel : Nat) (start_url : String) (data : Json) (cls : List Json)
       (hs : List String),
       fetch start_url = some data →
       dynamic_phase_a data = Except.ok (cls, false) →
       cls ≠ [] →
       resolved_child_hrefs resolve start_url cls = Except.ok hs →
       (∀ x ∈ hs, x ≠ "") →
       (harvest_dynamic_catalog fetch resolve fuel start_url).worker_calls =
         hs.filter (fun x => !strEndsWith x ".json")) ∧
    (∀ (fetch : String → Option Json) (resolve : String → String → String)
       (fuel : Nat) (start_url : String) (data : Json) (cls : List Json) (hm : Bool),
       fetch start_url = some data →
       dynamic_phase_a data = Except.ok (cls, hm) →
       (cls = [] ∨ hm = true) →
       (harvest_dynamic_catalog fetch resolve fuel start_url).worker_calls =
         [start_url]) := by
  constructor
  · intro fetch resolve fuel s data cls hs hf hpa hcl hrh hne
    simp only [harvest_dynamic_catalog, hf, hpa]
    rw [if_pos ⟨hcl, trivial⟩]
    have hcalls := (federated_loop_calls fetch resolve fuel s cls hs hrh hne).1
    split <;> exact hcalls
  · intro fetch resolve fuel s data cls hm hf hpa hor
    simp only [harvest_dynamic_catalog, hf, hpa]
    rw [if_neg (by rcases hor with h | h <;> simp [h])]

/-- C3 witness: a federated root with one plain and one `.json` child link
spawns exactly one worker (on the plain child); a root carrying a
`/collections` link spawns exactly one worker on the root URL despite its
child link. -/
theorem c3_witness :
    (harvest_dynamic_catalog fetch_c3 resolve_id 5 "http://r").worker_calls =
      (["http://s1", "http://s2.json"].filter (fun x => !strEndsWith x ".json")) ∧
    (harvest_dynamic_catalog fetch_c3b resolve_id 5 "http://r").worker_calls =
      ["http://r"] := by
  constructor
  · exact c3_federation_branch.1 fetch_c3 resolve_id 5 "http://r" doc_c3
      [link_s1, link_s2] ["http://s1", "http://s2.json"] rfl rfl (by simp) rfl (by decide)
  · exact c3_federation_branch.2 fetch_c3b resolve_id 5 "http://r" doc_c3b
      [link_s1] true rfl rfl (Or.inr rfl)

/-- C6: a failure on the very first (Phase A root) fetch makes the whole
endpoint traversal return `None`; inside a Phase B worker a failed dequeue
is skipped with no requeue and the loop continues on the rest of the queue;
and worker-level failures never escalate — whenever Phase A succeeds, the
engine returns a result, whatever the workers' fetches do. -/
theorem c6_failure_escalation :
    (∀ (fetch : String → Option Json) (resolve : String → String → String)
       (fuel : Nat) (start_url : String),
       fetch start_url = none →
       (harvest_dynamic_catalog fetch resolve fuel start_url).result = none) ∧
    (∀ (fetch : String → Option Json) (resolve : String → String → String)
       (fuel : Nat) (url : String) (rest visited : List String)
       (unique : List (Json × Json)) (limit : Nat),
       fetch url = none → ¬(0 < limit ∧ limit ≤ unique.length) →
       worker_loop fetch resolve (fuel + 1) (url :: rest) visited unique limit =
         ⟨(worker_loop fetch resolve fuel rest visited unique limit).unique,
          url :: (worker_loop fetch resolve fuel rest visited unique limit).fetched,
          (worker_loop fetch resolve fuel rest visited unique limit).dynamic_limit⟩) ∧
    (∀ (fetch : String → Option Json) (resolve : String → String → String)
       (fuel : Nat) (start_url : String) (data : Json) (cls : List Json) (hm : Bool),
       fetch start_url = some data →
       dynamic_phase_a data = Except.ok (cls, hm) →
       (cls = [] ∨ hm = true) →
       (harvest_dynamic_catalog fetch resolve fuel start_url).result =
         some (worker_records (_dynamic_worker fetch resolve fuel start_url),
               ["Single endpoint crawl."])) ∧
    (∀ (fetch : String → Option Json) (resolve : String → String → String)
       (fuel : Nat) (start_url : String) (data : Json) (cls : List Json),
       fetch start_url = some data →
       dynamic_phase_a data = Except.ok (cls, false) →
       cls ≠ [] →
       (federated_loop fetch resolve fuel start_url cls).crashed = false →
       (harvest_dynamic_catalog fetch resolve fuel start_url).result ≠ none) := by
  refine ⟨?_, ?_, ?_, ?_⟩
  · intro fetch resolve fuel s hf
    simp [harvest_dynamic_catalog, hf]
  · intro fetch resolve fuel url rest v u l hf hstop
    simp only [worker_loop, hf]
    rw [if_neg hstop]
  · intro fetch resolve fuel s data cls hm hf hpa hor
    simp only [harvest_dynamic_catalog, hf, hpa]
    rw [if_neg (by rcases hor with h | h <;> simp [h])]
  · intro fetch resolve fuel s data cls hf hpa hcl hcr
    simp only [harvest_dynamic_catalog, hf, hpa]
    rw [if_pos ⟨hcl, trivial⟩, if_neg (by simp [hcr])]
    simp

/-- C6 witness: concrete instances — a root-fetch failure yields `None`; a
failed worker dequeue is skipped and the loop continues; a single-endpoint
run and a federated run whose workers only see failures still return
results. -/
theorem c6_witness :
    (harvest_dynamic_catalog fetch_c6a resolve_id 5 "http://r").result = none ∧
    worker_loop fetch_c6a resolve_id 3 ["http://u"] ["http://u"] [] 0 =
      ⟨(worker_loop fetch_c6a resolve_id 2 [] ["http://u"] [] 0).unique,
       "http://u" :: (worker_loop fetch_c6a resolve_id 2 [] ["http://u"] [] 0).fetched,
       (worker_loop fetch_c6a resolve_id 2 [] ["http://u"] [] 0).dynamic_limit⟩ ∧
    (harvest_dynamic_catalog fetch_c6c resolve_id 5 "http://r").result =
      some (worker_records (_dynamic_worker fetch_c6c resolve_id 5 "http://r"),
            ["Single endpoint crawl."]) ∧
    (harvest_dynamic_catalog fetch_c6d resolve_id 5 "http://r").result ≠ none := by
  refine ⟨c6_failure_escalation.1 fetch_c6a resolve_id 5 "http://r" rfl,
          c6_failure_escalation.2.1 fetch_c6a resolve_id 2 "http://u" [] ["http://u"] []
            0 rfl (by simp),
          c6_failure_escalation.2.2.1 fetch_c6c resolve_id 5 "http://r" (Json.obj [])
            [] false rfl rfl (Or.inl rfl),
          c6_failure_escalation.2.2.2 fetch_c6d resolve_id 5 "http://r" doc_c6d
            [Json.obj [("rel", Json.str "child"), ("href", Json.str "http://s6")]]
            rfl rfl (by decide) (by decide)⟩

/-- C4: the first time a worker processes a document with a list-valued
`collections` field (soft limit still at its unset sentinel 0), the soft
limit becomes that list's length; once set, the loop stops before the next
dequeue as soon as the number of distinct accumulated ids reaches it; every
id-carrying item of such a list is upserted keyed by its id with
last-write-wins; and the single-endpoint `[{id:x},{id:y}]` scenario yields
exactly the records `x`,`y` with the soft limit fixed at 2. -/
theorem c4_soft_limit :
    (∀ (resolve : String → String → String) (url : String)
       (kvs : List (String × Json)) (visited queue : List String)
       (unique : List (Json × Json)) (items : List Json),
       jsonLookup kvs "collections" = some (Json.arr items) →
       (worker_step resolve url kvs visited queue unique 0).dynamic_limit =
         items.length) ∧
    (∀ (fetch : String → Option Json) (resolve : String → String → String)
       (fuel : Nat) (url : String) (rest visited : List String)
       (unique : List (Json × Json)) (limit : Nat),
       0 < limit → limit ≤ unique.length →
       worker_loop fetch resolve (fuel + 1) (url :: rest) visited unique limit =
         ⟨unique, [], limit⟩) ∧
    (∀ (items : List Json) (unique : List (Json × Json)) (k : Json),
       dict_get (worker_collections items unique) k =
         match last_with_id k items with
         | some it => some it
         | none => dict_get unique k) ∧
    ((harvest_dynamic_catalog fetch_c4 resolve_id 5 "http://r").result =
       some ([item_x, item_y], ["Single endpoint crawl."]) ∧
     (_dynamic_worker fetch_c4 resolve_id 5 "http://r").dynamic_limit = 2) := by
  refine ⟨?_, ?_, worker_collections_get, rfl, rfl⟩
  · intro resolve url kvs v q u items hcl
    simp only [worker_step, hcl]
    split <;> simp
  · intro fetch resolve fuel url rest v u l h1 h2
    simp only [worker_loop]
    rw [if_pos ⟨h1, h2⟩]

/-- C4 witness: a concrete first page of length 2 sets the soft limit to 2; a
loop at its soft limit stops without fetching; and the later of two writes
under one id wins. -/
theorem c4_witness :
    (worker_step resolve_id "http://r" [("collections", Json.arr [item_x, item_y])]
       [] [] [] 0).dynamic_limit = 2 ∧
    worker_loop fetch_c4 resolve_id 3 ["http://u"] [] [(Json.str "z", item_x)] 1 =
      ⟨[(Json.str "z", item_x)], [], 1⟩ ∧
    dict_get (worker_collections [item_x] []) (Json.str "x") = some item_x := by
  refine ⟨?_, ?_, ?_⟩
  · exact c4_soft_limit.1 resolve_id "http://r"
      [("collections", Json.arr [item_x, item_y])] [] [] [] [item_x, item_y] rfl
  · exact c4_soft_limit.2.1 fetch_c4 resolve_id 2 "http://u" [] []
      [(Json.str "z", item_x)] 1 (by decide) (by decide)
  · exact (c4_soft_limit.2.2.1 [item_x] [] (Json.str "x")).trans (by rfl)

/-- C9: the plan rule applies in order — non-`OK` status means `Skip`; an `OK`
status with a root URL ending in `.json` or `f=json` means the static
(Link-Graph) strategy with depth 3 and limit 300; any other `OK` endpoint
gets the dynamic (Paginated/Federated) strategy with depth 10; and a manual
override for the endpoint id forces `Skip` regardless of URL or probe. -/
theorem c9_strategy_classifier :
    (∀ (status url : String), status ≠ "OK" → plan_entry status url = Strategy.skip) ∧
    (∀ url : String,
       (strEndsWith url ".json" = true ∨ strEndsWith url "f=json" = true) →
       plan_entry "OK" url = Strategy.static_harvest 3 300) ∧
    (∀ url : String, strEndsWith url ".json" = false → strEndsWith url "f=json" = false →
       plan_entry "OK" url = Strategy.dynamic_harvest 10) ∧
    (∀ (slug : String) (probe : String → Option String) (url : String),
       slug ∈ MANUAL_OVERRIDES →
       plan_entry (recon_status slug probe url) url = Strategy.skip) := by
  refine ⟨?_, ?_, ?_, ?_⟩
  · intro status url h
    simp [plan_entry, h]
  · intro url h
    simp only [plan_entry]
    rw [if_neg (fun hne => hne rfl), if_pos h]
  · intro url h1 h2
    simp only [plan_entry]
    rw [if_neg (fun hne => hne rfl), if_neg (by simp [h1, h2])]
  · intro slug probe url hmem
    have hs : recon_status slug probe url = "Skipped (Manual Override)" := by
      simp [recon_status, hmem]
    rw [hs]
    simp only [plan_entry]
    rw [if_pos (by decide)]

/-- C9 witness: the four rule branches at concrete inputs, including the
`cbers` manual override forcing `Skip` under a would-be-reachable probe. -/
theorem c9_witness :
    plan_entry "Failed: ConnectTimeout" "http://x" = Strategy.skip ∧
    plan_entry "OK" "http://x/catalog.json" = Strategy.static_harvest 3 300 ∧
    plan_entry "OK" "http://x/api" = Strategy.dynamic_harvest 10 ∧
    plan_entry (recon_status "cbers" probe_c9 "http://x/api") "http://x/api" =
      Strategy.skip := by
  refine ⟨c9_strategy_classifier.1 "Failed: ConnectTimeout" "http://x" (by decide),
          c9_strategy_classifier.2.1 "http://x/catalog.json" (Or.inl (by decide)),
          c9_strategy_classifier.2.2.1 "http://x/api" (by decide) (by decide),
          c9_strategy_classifier.2.2.2 "cbers" probe_c9 "http://x/api" (by decide)⟩
